import Mathlib

/-!
Verification of the camouflage-tile generator (src/main.py) against its
specification.

Modelling conventions, used throughout this file:

* Python floats are modelled as exact rationals.  Every numeric value the
  verified properties depend on is either structural (list lengths, draw
  order, color keys) or is modelled bit-exactly; the one place where IEEE
  double semantics is observable in a claim is the size-class count
  computation (round with ties-to-even on the double nearest 0.3), which is
  modelled exactly with scaled integers (see roundHalfEven54, rne53, nBig).
* The external libraries that src/main.py calls are not part of the
  repository, so they are modelled as parameters: math.cos, math.sin,
  math.hypot, math.radians and math.pi as an arbitrary MathLib structure
  (each function returns a double, i.e. some rational, for every rational
  argument), and the random.Random stream as an arbitrary PyRandom
  structure whose contract (LawfulPyRandom) states only what the Python
  documentation guarantees: randint a b lands in [a, b], randrange a b
  succeeds exactly when a < b and lands in [a, b), and shuffle permutes.
  Every theorem quantifies over all such implementations, hence covers the
  real ones.
* Python strings are modelled as lists of Unicode code points (List Nat);
  only ASCII whitespace is modelled for str.strip and only ASCII letters
  for str.lower, which is all that int(_, 16) and the hex-color format can
  observe on the inputs considered.
* Fallible Python code (IndexError, ValueError from randrange or int) is
  modelled with Option: none is an uncaught exception.
* list.sort with a key is a stable sort; any two stable sorts by the same
  key agree extensionally, so it is modelled by stable insertion sort.
-/

/-! ## IEEE-double rounding model for the size-class counts -/

/-- Round a scaled integer q (representing the real number q / 2 ^ 54) to the
nearest integer, ties to even.  This is Python round on a double whose exact
value is q / 2 ^ 54. -/
def roundHalfEven54 (q : ℕ) : ℕ :=
  let n := q / 2 ^ 54
  let rem := q % 2 ^ 54
  if rem > 2 ^ 53 then n + 1
  else if rem < 2 ^ 53 then n
  else if n % 2 = 0 then n else n + 1

/-- Number of bits of q in excess of 53, computed with structural fuel
recursion (enough fuel for every q below 2 ^ (53 + fuel)). -/
def excessBits : ℕ → ℕ → ℕ
  | 0, _ => 0
  | f + 1, q => if q < 2 ^ 53 then 0 else excessBits f (q / 2) + 1

/-- Round a nonnegative integer to 53 significant bits, ties to even: the
IEEE-754 double rounding of an integer-valued real (exponent issues cannot
arise at the magnitudes the program uses). -/
def rne53 (q : ℕ) : ℕ :=
  if q < 2 ^ 53 then q
  else
    let d := excessBits 200 q
    let hi := q / 2 ^ d
    let rem := q % 2 ^ d
    let half := 2 ^ (d - 1)
    let hi2 := if rem > half then hi + 1 else if rem < half then hi
      else if hi % 2 = 0 then hi else hi + 1
    hi2 * 2 ^ d

/-- Mantissa of the IEEE double nearest to 0.3: its exact value is
c03num / 2 ^ 54 (hex 0x1.3333333333333p-2). -/
def c03num : ℕ := 5404319552844595

/-- n_mid of generate_camo: int(round(macro_count * 0.50)).  The double
product macro_count * 0.5 is exact, with value (mc * 2 ^ 53) / 2 ^ 54. -/
def nMid (mc : ℕ) : ℕ := roundHalfEven54 (mc * 2 ^ 53)

/-- n_big of generate_camo: int(round(macro_count * 0.30)).  The double
product rounds mc * c03num to 53 significant bits. -/
def nBig (mc : ℕ) : ℕ := roundHalfEven54 (rne53 (mc * c03num))

/-- n_huge of generate_camo: macro_count - n_mid - n_big, an int that the
source does not clamp, hence modelled in ℤ. -/
def nHuge (mc : ℕ) : ℤ := (mc : ℤ) - nMid mc - nBig mc

/-- Python round on a rational (used for int(round(tile_mm * px_per_mm)),
where the double product is exact for the realistic magnitudes): nearest
integer, ties to even. -/
def pyRoundQ (q : ℚ) : ℤ :=
  let n := q.num.fdiv q.den
  let r := q - n
  if r > 1 / 2 then n + 1
  else if r < 1 / 2 then n
  else if n % 2 = 0 then n else n + 1

/-! ## Geometry utilities (src/main.py lines 60-90) -/

/-- Point = Tuple[float, float], a type alias in the source. -/
abbrev Point : Type := ℚ × ℚ

/-- polygon_area, src/main.py lines 70-78: the loop adds
x_i * y_((i+1) mod n) - x_((i+1) mod n) * y_i for i in range(n), which is
exactly the sum of x * y - x * y over the list zipped with its rotation by
one (same pairs, same order, including the closing pair (last, first)). -/
def shoelaceSum (poly : List Point) : ℚ :=
  ((poly.zip (poly.rotate 1)).map
    (fun pq => pq.1.1 * pq.2.2 - pq.2.1 * pq.1.2)).sum

/-- polygon_area returns abs(s) / 2.0. -/
def polygon_area (poly : List Point) : ℚ := |shoelaceSum poly| / 2

/-- All points of the list lie on one line: every triple of points has a
vanishing cross product of difference vectors (the usual decidable
formulation of a degenerate point set). -/
def collinearPts (l : List Point) : Prop :=
  ∀ p ∈ l, ∀ q ∈ l, ∀ r ∈ l,
    (q.1 - p.1) * (r.2 - p.2) - (q.2 - p.2) * (r.1 - p.1) = 0

instance (l : List Point) : Decidable (collinearPts l) := by
  unfold collinearPts
  infer_instance

/-- The math module of the Python standard library, external to the
repository: each function takes rationals (doubles) to rationals
(doubles).  Left fully abstract; the theorems hold for every
implementation, in particular the real one. -/
structure MathLib where
  cos : ℚ → ℚ
  sin : ℚ → ℚ
  hypot : ℚ → ℚ → ℚ
  radians : ℚ → ℚ
  pi : ℚ

/-- rotate_points, src/main.py lines 81-86: ca and sa are computed once and
each point is mapped. -/
def rotate_points (M : MathLib) (poly : List Point) (angle_rad : ℚ) : List Point :=
  let ca := M.cos angle_rad
  let sa := M.sin angle_rad
  poly.map (fun p => (p.1 * ca - p.2 * sa, p.1 * sa + p.2 * ca))

/-- translate_points, src/main.py lines 89-90. -/
def translate_points (poly : List Point) (dx dy : ℚ) : List Point :=
  poly.map (fun p => (p.1 + dx, p.2 + dy))

/-! ## The random.Random stream, external to the repository -/

/-- The subset of the random.Random interface that src/main.py uses, as an
abstract deterministic stream over a state type sg.  init seeds the stream
(random.Random(seed)); randrange returns none exactly when Python raises
ValueError (empty range) under the lawfulness contract below. -/
structure PyRandom (sg : Type) where
  init : ℤ → sg
  randint : ℤ → ℤ → sg → ℤ × sg
  uniform : ℚ → ℚ → sg → ℚ × sg
  rnd : sg → ℚ × sg
  randrange : ℤ → ℤ → sg → Option (ℤ × sg)
  shuffle : List (ℚ × ℚ) → sg → List (ℚ × ℚ) × sg

/-- The documented contract of the random.Random methods used. -/
structure LawfulPyRandom {sg : Type} (R : PyRandom sg) : Prop where
  randint_ge : ∀ a b s, a ≤ b → a ≤ (R.randint a b s).1
  randint_le : ∀ a b s, a ≤ b → (R.randint a b s).1 ≤ b
  randrange_pos : ∀ a b s, a < b →
    ∃ r s2, R.randrange a b s = some (r, s2) ∧ a ≤ r ∧ r < b
  randrange_empty : ∀ a b s, b ≤ a → R.randrange a b s = none
  shuffle_perm : ∀ l s, List.Perm (R.shuffle l s).1 l

/-- Threads the stream state through a loop body applied to each element of
a list, returning the produced values in order (the shape of every
for-loop in src/main.py that builds a list). -/
def stMap {α β sg : Type} (f : α → sg → β × sg) : List α → sg → List β × sg
  | [], s => ([], s)
  | a :: as, s =>
    let p := f a s
    let rest := stMap f as p.2
    (p.1 :: rest.1, rest.2)

/-! ## random_blob (src/main.py lines 97-142) -/

/-- One iteration of the base-point loop of random_blob (lines 115-118). -/
def basePoint {sg : Type} (M : MathLib) (R : PyRandom sg) (n : ℤ) (base_r : ℚ)
    (i : ℕ) (s : sg) : Point × sg :=
  let u := R.uniform (-18) 18 s
  let a := (2 * M.pi / (n : ℚ)) * (i : ℚ) + M.radians u.1
  let v := R.uniform (62 / 100) (105 / 100) u.2
  let r := base_r * v.1
  ((M.cos a * r, M.sin a * r), v.2)

/-- One iteration of the inner jag loop of random_blob (lines 128-140),
producing the perturbed subdivision point for j in range(1, k + 1). -/
def jagPoint {sg : Type} (M : MathLib) (R : PyRandom sg) (base_r : ℚ)
    (jag_amp : ℚ × ℚ) (p1 p2 : Point) (k : ℤ) (j : ℕ) (s : sg) : Point × sg :=
  let t : ℚ := (j : ℚ) / ((k : ℚ) + 1)
  let mx := p1.1 + (p2.1 - p1.1) * t
  let my := p1.2 + (p2.2 - p1.2) * t
  let vx := p2.1 - p1.1
  let vy := p2.2 - p1.2
  let L := M.hypot vx vy + 1 / 1000000000
  let nx := -vy / L
  let ny := vx / L
  let u := R.uniform jag_amp.1 jag_amp.2 s
  let amp := base_r * u.1
  let w := R.rnd u.2
  let sign : ℚ := if w.1 < 1 / 2 then -1 else 1
  ((mx + nx * amp * sign, my + ny * amp * sign), w.2)

/-- One iteration of the outer dentelage loop of random_blob (lines
122-140): emits the base vertex pts[i] followed by its k jag points. -/
def dentEdge {sg : Type} (M : MathLib) (R : PyRandom sg) (n : ℤ) (base_r : ℚ)
    (jag_subdiv : ℤ × ℤ) (jag_amp : ℚ × ℚ) (pts : List Point) (i : ℕ)
    (s : sg) : List Point × sg :=
  let p1 := pts.getD i (0, 0)
  let p2 := pts.getD ((i + 1) % n.toNat) (0, 0)
  let kk := R.randint jag_subdiv.1 jag_subdiv.2 s
  let jags := stMap (jagPoint M R base_r jag_amp p1 p2 kk.1)
    ((List.range kk.1.toNat).map (fun j => j + 1)) kk.2
  (p1 :: jags.1, jags.2)

/-- random_blob, src/main.py lines 97-142. -/
def random_blob {sg : Type} (M : MathLib) (R : PyRandom sg)
    (r_min r_max : ℚ) (n_base jag_subdiv : ℤ × ℤ) (jag_amp : ℚ × ℚ)
    (s : sg) : List Point × sg :=
  let nn := R.randint n_base.1 n_base.2 s
  let br := R.uniform r_min r_max nn.2
  let pts := stMap (basePoint M R nn.1 br.1) (List.range nn.1.toNat) br.2
  let dent := stMap (dentEdge M R nn.1 br.1 jag_subdiv jag_amp pts.1)
    (List.range nn.1.toNat) pts.2
  (dent.1.flatten, dent.2)

/-! ## Shapes and the generation pipeline (src/main.py lines 149-277) -/

/-- The Shape dataclass, src/main.py lines 149-153. -/
structure Shape where
  poly : List Point
  color_key : String
  z : ℤ
deriving DecidableEq

/-- Python list indexing (negative indices count from the end; out of range
raises IndexError, modelled as none). -/
def pyIndex {α : Type} (l : List α) (i : ℤ) : Option α :=
  if 0 ≤ i then l.get? i.toNat
  else if 0 ≤ i + l.length then l.get? (i + l.length).toNat else none

/-- One iteration of the macro placement loop, src/main.py lines 190-219:
blob, independent rotation, anisotropic scale, position, color role. -/
def macroStep {sg : Type} (M : MathLib) (R : PyRandom sg) (px_per_mm : ℚ)
    (W H : ℤ) (ab : ℚ × ℚ) (s : sg) : Shape × sg :=
  let r_min := ab.1 * px_per_mm * (1 / 2)
  let r_max := ab.2 * px_per_mm * (3 / 5)
  let blob := random_blob M R r_min r_max (7, 13) (1, 3) (1 / 10, 3 / 10) s
  let angu := R.uniform 0 (2 * M.pi) blob.2
  let poly1 := rotate_points M blob.1 angu.1
  let sxu := R.uniform (3 / 4) (27 / 20) angu.2
  let syu := R.uniform (3 / 4) (27 / 20) sxu.2
  let poly2 := poly1.map (fun p => (p.1 * sxu.1, p.2 * syu.1))
  let cxu := R.uniform 0 (W : ℚ) syu.2
  let cyu := R.uniform 0 (H : ℚ) cxu.2
  let poly := translate_points poly2 cxu.1 cyu.1
  if ab = (50, 60) then
    let u := R.rnd cyu.2
    (⟨poly, if u.1 < 7 / 10 then "C3" else "C1", 10⟩, u.2)
  else
    let u := R.rnd cyu.2
    (⟨poly, if u.1 < 11 / 20 then "C1" else "C3", 10⟩, u.2)

/-- One iteration of the micro placement loop, src/main.py lines 222-274:
appends exactly one z = 30 shape to the running list, or fails where Python
would raise (empty randrange, out-of-range index). -/
def microStep {sg : Type} (M : MathLib) (R : PyRandom sg) (px_per_mm : ℚ)
    (shapes : List Shape) (s : sg) : Option (List Shape × sg) :=
  let mmu := R.uniform 8 25 s
  let micro_mm := mmu.1
  let r_min := micro_mm * px_per_mm * (35 / 100)
  let r_max := micro_mm * px_per_mm * (55 / 100)
  let blob := random_blob M R r_min r_max (6, 10) (1, 2) (12 / 100, 28 / 100) mmu.2
  let angu := R.uniform 0 (2 * M.pi) blob.2
  let micro1 := rotate_points M blob.1 angu.1
  match R.randrange 0 (shapes.length : ℤ) angu.2 with
  | none => none
  | some (idx, s1) =>
    match pyIndex shapes idx with
    | none => none
    | some tgt =>
      let tgt_poly := tgt.poly
      match R.randrange 0 (tgt_poly.length : ℤ) s1 with
      | none => none
      | some (k, s2) =>
        match pyIndex tgt_poly k, pyIndex tgt_poly ((k + 1) % (tgt_poly.length : ℤ)) with
        | some p1, some p2 =>
          let tu := R.uniform (15 / 100) (85 / 100) s2
          let px0 := p1.1 + (p2.1 - p1.1) * tu.1
          let py0 := p1.2 + (p2.2 - p1.2) * tu.1
          let vx := p2.1 - p1.1
          let vy := p2.2 - p1.2
          let L := M.hypot vx vy + 1 / 1000000000
          let nx := -vy / L
          let ny := vx / L
          let bu := R.uniform (-(11 / 10)) (11 / 10) tu.2
          let bite := bu.1 * (micro_mm * px_per_mm * (55 / 100))
          let px2 := px0 + nx * bite
          let py2 := py0 + ny * bite
          let cr := R.rnd bu.2
          let pp := if cr.1 < 1 / 5 then
              let pu := R.uniform (4 / 5) (7 / 5) cr.2
              let push := pu.1 * (micro_mm * px_per_mm)
              (px2 + nx * push, py2 + ny * push, pu.2)
            else (px2, py2, cr.2)
          let micro := translate_points micro1 pp.1 pp.2.1
          let cu := R.rnd pp.2.2
          let ck := if cu.1 < 17 / 25 then "C4" else "C2"
          some (shapes ++ [⟨micro, ck, 30⟩], cu.2)
        | _, _ => none

/-- The micro loop, src/main.py lines 222-274: micro_count iterations of
microStep, threading the growing shape list. -/
def microLoop {sg : Type} (M : MathLib) (R : PyRandom sg) (px_per_mm : ℚ) :
    ℕ → List Shape → sg → Option (List Shape × sg)
  | 0, shapes, s => some (shapes, s)
  | n + 1, shapes, s =>
    match microStep M R px_per_mm shapes s with
    | none => none
    | some (shapes2, s2) => microLoop M R px_per_mm n shapes2 s2

/-- Stable sort by the z key (shapes.sort with key s.z, line 276): Python
timsort is stable, and every stable sort by a key computes the same
function, here stable insertion sort. -/
def sortShapes (l : List Shape) : List Shape :=
  l.insertionSort (fun a b => a.z ≤ b.z)

/-- generate_camo before the final sort, src/main.py lines 171-275: seed,
canvas size, size-class distribution, shuffle, macro loop, micro loop. -/
def genPhases {sg : Type} (M : MathLib) (R : PyRandom sg) (seed : ℤ)
    (tile_mm : ℤ) (px_per_mm : ℚ) (macro_count micro_count : ℕ) :
    Option (ℤ × List Shape) :=
  let s0 := R.init seed
  let W : ℤ := pyRoundQ ((tile_mm : ℚ) * px_per_mm)
  let sizes : List (ℚ × ℚ) :=
    List.replicate (nMid macro_count) (50, 60) ++
    List.replicate (nBig macro_count) (70, 80) ++
    List.replicate (nHuge macro_count).toNat (90, 110)
  let sh := R.shuffle sizes s0
  let mac := stMap (macroStep M R px_per_mm W W) sh.1 sh.2
  match microLoop M R px_per_mm micro_count mac.1 mac.2 with
  | none => none
  | some r => some (W, r.1)

/-- generate_camo, src/main.py lines 160-277: the phases above followed by
the stable sort on z, returning (tile_px, shapes). -/
def generate_camo {sg : Type} (M : MathLib) (R : PyRandom sg) (seed : ℤ)
    (tile_mm : ℤ) (px_per_mm : ℚ) (macro_count micro_count : ℕ) :
    Option (ℤ × List Shape) :=
  match genPhases M R seed tile_mm px_per_mm macro_count micro_count with
  | none => none
  | some r => some (r.1, sortShapes r.2)

/-! ## wrapped_instances (src/main.py lines 284-289) -/

/-- wrapped_instances: for dx in (-W, 0, W), for dy in (-H, 0, H), append
the translate of poly by (dx, dy). -/
def wrapped_instances (poly : List Point) (W H : ℤ) : List (List Point) :=
  (([-W, 0, W] : List ℤ).map (fun dx =>
    ([-H, 0, H] : List ℤ).map (fun dy =>
      poly.map (fun p => (p.1 + (dx : ℚ), p.2 + (dy : ℚ)))))).flatten

/-- The 3 x 3 grid of tile offsets in the traversal order of the two nested
loops of wrapped_instances. -/
def offsetGrid (S : ℤ) : List (ℤ × ℤ) :=
  [(-S, -S), (-S, 0), (-S, S), (0, -S), (0, 0), (0, S), (S, -S), (S, 0), (S, S)]

/-! ## The summary report (src/main.py lines 358-369) -/

/-- total_area of the report: sum of polygon_area over all shapes. -/
def totalArea (shapes : List Shape) : ℚ :=
  (shapes.map (fun sh => polygon_area sh.poly)).sum

/-- area_by[k] of the report: the dict accumulation adds each shape area to
the entry of its color key, i.e. the sum over shapes with that key. -/
def areaBy (shapes : List Shape) (k : String) : ℚ :=
  ((shapes.filter (fun sh => sh.color_key == k)).map
    (fun sh => polygon_area sh.poly)).sum

/-- The reported ratio for key k, line 368: area_by[k] / total_area when
total_area > 0, else 0.0. -/
def ratioReport (shapes : List Shape) (k : String) : ℚ :=
  if totalArea shapes > 0 then areaBy shapes k / totalArea shapes else 0

/-! ## hex_to_rgb (src/main.py lines 63-67)

Python strings are modelled as lists of code points.  str.strip removes
surrounding whitespace, str.lower maps the ASCII uppercase range down, and
int(slice, 16) follows the CPython grammar for a base-16 literal:
surrounding whitespace, an optional sign, then hex digits with optional
single underscores between digits (a 0x prefix needs at least three
characters, so it cannot occur in the two-character slices taken here). -/

/-- Whitespace for str.strip and int (ASCII range). -/
def pySpace (c : ℕ) : Bool :=
  c == 32 || c == 9 || c == 10 || c == 13 || c == 11 || c == 12

/-- str.strip: drop whitespace from both ends. -/
def pyStrip (l : List ℕ) : List ℕ :=
  ((l.dropWhile pySpace).reverse.dropWhile pySpace).reverse

/-- str.lower on one code point (ASCII range). -/
def pyLowerChar (c : ℕ) : ℕ := if 65 ≤ c ∧ c ≤ 90 then c + 32 else c

/-- Value of a hexadecimal digit (0-9, a-f, A-F), none otherwise. -/
def hexVal (c : ℕ) : Option ℕ :=
  if 48 ≤ c ∧ c ≤ 57 then some (c - 48)
  else if 97 ≤ c ∧ c ≤ 102 then some (c - 87)
  else if 65 ≤ c ∧ c ≤ 70 then some (c - 55)
  else none

/-- Digits of a base-16 literal after the first digit: hex digits with
single underscores allowed between digits. -/
def hexDigitsAux : ℕ → List ℕ → Option ℕ
  | acc, [] => some acc
  | acc, c :: cs =>
    match hexVal c with
    | some v => hexDigitsAux (16 * acc + v) cs
    | none =>
      if c = 95 then
        match cs with
        | [] => none
        | d :: cs2 =>
          match hexVal d with
          | some v => hexDigitsAux (16 * acc + v) cs2
          | none => none
      else none

/-- A nonempty run of base-16 digits (with single underscores between). -/
def hexDigits : List ℕ → Option ℕ
  | [] => none
  | c :: cs =>
    match hexVal c with
    | some v => hexDigitsAux v cs
    | none => none

/-- int(s, 16): surrounding whitespace, optional sign (43 is plus, 45 is
minus), then digits; none where CPython raises ValueError. -/
def pyInt16 (l : List ℕ) : Option ℤ :=
  let t := pyStrip l
  if t.head? = some 43 then (hexDigits t.tail).map (fun n => (n : ℤ))
  else if t.head? = some 45 then (hexDigits t.tail).map (fun n => -(n : ℤ))
  else (hexDigits t).map (fun n => (n : ℤ))

/-- hex_to_rgb, src/main.py lines 63-67: strip and lower the input, require
a string of length 7 starting with the hash sign (code 35), then parse the
three 2-character slices in base 16; none models the raised ValueError. -/
def hex_to_rgb (input : List ℕ) : Option (ℤ × ℤ × ℤ) :=
  let h := (pyStrip input).map pyLowerChar
  if h.head? = some 35 ∧ h.length = 7 then
    match pyInt16 ((h.drop 1).take 2), pyInt16 ((h.drop 3).take 2),
        pyInt16 ((h.drop 5).take 2) with
    | some a, some b, some c => some (a, b, c)
    | _, _, _ => none
  else none

/-- The well-formedness predicate of the claim: a 7-character string that is
the hash sign followed by 6 hexadecimal digits. -/
def isCanonicalHex (l : List ℕ) : Prop :=
  l.length = 7 ∧ l.head? = some 35 ∧ ∀ c ∈ l.drop 1, (hexVal c).isSome

instance (l : List ℕ) : Decidable (isCanonicalHex l) := by
  unfold isCanonicalHex; infer_instance

/-- Success of int(s, 16) on a 2-character slice, stated independently of
the parser: two hex digits, or one hex digit with a sign or a whitespace
character on the correct side. -/
def slice2OK (a b : ℕ) : Prop :=
  ((hexVal a).isSome ∧ (hexVal b).isSome) ∨
  ((a = 43 ∨ a = 45 ∨ pySpace a = true) ∧ (hexVal b).isSome) ∨
  ((hexVal a).isSome ∧ pySpace b = true)

instance (a b : ℕ) : Decidable (slice2OK a b) := by
  unfold slice2OK; infer_instance

/-- The inputs hex_to_rgb actually accepts: after strip and lower, a
7-character string starting with the hash sign whose three 2-character
slices each parse under the int grammar. -/
def pyAcceptedHex (l : List ℕ) : Prop :=
  let h := (pyStrip l).map pyLowerChar
  h.length = 7 ∧ h.head? = some 35 ∧
  slice2OK (h.getD 1 0) (h.getD 2 0) ∧
  slice2OK (h.getD 3 0) (h.getD 4 0) ∧
  slice2OK (h.getD 5 0) (h.getD 6 0)

/-- The three byte values encoded by a canonical color string (digit value
of position i times 16 plus digit value of position i+1). -/
def parsedBytes (l : List ℕ) : ℤ × ℤ × ℤ :=
  (16 * ((hexVal (l.getD 1 0)).getD 0 : ℤ) + ((hexVal (l.getD 2 0)).getD 0 : ℤ),
   16 * ((hexVal (l.getD 3 0)).getD 0 : ℤ) + ((hexVal (l.getD 4 0)).getD 0 : ℤ),
   16 * ((hexVal (l.getD 5 0)).getD 0 : ℤ) + ((hexVal (l.getD 6 0)).getD 0 : ℤ))

/-! ## Concrete instances used by the closed witnesses -/

/-- A concrete MathLib implementation (all functions constantly zero). -/
def M0 : MathLib := ⟨fun _ => 0, fun _ => 0, fun _ _ => 0, fun _ => 0, 0⟩

/-- A concrete lawful PyRandom implementation over the unit state: every
draw returns the lower end of its range. -/
def trivialRandom : PyRandom Unit :=
  ⟨fun _ => (), fun a _ _ => (a, ()), fun a _ _ => (a, ()), fun _ => (0, ()),
   fun a b _ => if a < b then some (a, ()) else none, fun l _ => (l, ())⟩

theorem trivialRandom_lawful : LawfulPyRandom trivialRandom := by
  constructor
  · intro a b s h; exact le_refl a
  · intro a b s h; exact h
  · intro a b s h
    refine ⟨a, (), ?_, le_refl a, h⟩
    simp only [trivialRandom, if_pos h]
  · intro a b s h
    simp only [trivialRandom, if_neg (not_lt.mpr h)]
  · intro l s; exact List.Perm.refl l

/-! ## Helper lemmas about the loops -/

theorem stMap_length {α β sg : Type} (f : α → sg → β × sg) :
    ∀ (l : List α) (s : sg), ((stMap f l s).1).length = l.length := by
  intro l
  induction l with
  | nil => intro s; rfl
  | cons a as ih => intro s; simp [stMap, ih]

theorem stMap_mem {α β sg : Type} (f : α → sg → β × sg) :
    ∀ (l : List α) (s : sg), ∀ b ∈ (stMap f l s).1,
      ∃ a s2, a ∈ l ∧ b = (f a s2).1 := by
  intro l
  induction l with
  | nil => intro s b hb; exact absurd hb (by simp [stMap])
  | cons a as ih =>
    intro s b hb
    simp only [stMap, List.mem_cons] at hb
    rcases hb with hb | hb
    · exact ⟨a, s, List.mem_cons_self a as, hb⟩
    · obtain ⟨a2, s2, ha2, hb2⟩ := ih _ b hb
      exact ⟨a2, s2, List.mem_cons_of_mem a ha2, hb2⟩

theorem macroStep_z {sg : Type} (M : MathLib) (R : PyRandom sg) (px : ℚ)
    (W H : ℤ) (ab : ℚ × ℚ) (s : sg) : ((macroStep M R px W H ab s).1).z = 10 := by
  simp only [macroStep]
  split <;> rfl

theorem macroStep_color {sg : Type} (M : MathLib) (R : PyRandom sg) (px : ℚ)
    (W H : ℤ) (ab : ℚ × ℚ) (s : sg) :
    ((macroStep M R px W H ab s).1).color_key = "C1" ∨
    ((macroStep M R px W H ab s).1).color_key = "C3" := by
  simp only [macroStep]
  split
  · split
    · exact Or.inr rfl
    · exact Or.inl rfl
  · split
    · exact Or.inl rfl
    · exact Or.inr rfl

theorem rotate_points_length (M : MathLib) (poly : List Point) (a : ℚ) :
    (rotate_points M poly a).length = poly.length := by
  simp [rotate_points]

theorem translate_points_length (poly : List Point) (dx dy : ℚ) :
    (translate_points poly dx dy).length = poly.length := by
  simp [translate_points]

theorem random_blob_ne_nil {sg : Type} (M : MathLib) (R : PyRandom sg)
    (law : LawfulPyRandom R) (rmin rmax : ℚ) (nb js : ℤ × ℤ) (ja : ℚ × ℚ)
    (s : sg) (h1 : 1 ≤ nb.1) (h2 : nb.1 ≤ nb.2) :
    ((random_blob M R rmin rmax nb js ja s).1) ≠ [] := by
  have hn : 1 ≤ (R.randint nb.1 nb.2 s).1 :=
    le_trans h1 (law.randint_ge nb.1 nb.2 s h2)
  simp only [random_blob]
  obtain ⟨m, hm⟩ : ∃ m, (R.randint nb.1 nb.2 s).1.toNat = m + 1 :=
    ⟨(R.randint nb.1 nb.2 s).1.toNat - 1, by omega⟩
  rw [hm, List.range_succ_eq_map]
  simp only [stMap, dentEdge]
  simp

theorem macroStep_poly_ne_nil {sg : Type} (M : MathLib) (R : PyRandom sg)
    (law : LawfulPyRandom R) (px : ℚ) (W H : ℤ) (ab : ℚ × ℚ) (s : sg) :
    ((macroStep M R px W H ab s).1).poly ≠ [] := by
  have hb := random_blob_ne_nil M R law (ab.1 * px * (1 / 2))
    (ab.2 * px * (3 / 5)) (7, 13) (1, 3) (1 / 10, 3 / 10) s (by norm_num) (by norm_num)
  simp only [macroStep]
  split <;>
  · intro h
    simp only [translate_points, rotate_points, List.map_eq_nil_iff] at h
    exact hb h

theorem randrange_some_bounds {sg : Type} {R : PyRandom sg}
    (law : LawfulPyRandom R) {a b r : ℤ} {s s2 : sg}
    (h : R.randrange a b s = some (r, s2)) : a ≤ r ∧ r < b := by
  by_cases hab : a < b
  · obtain ⟨r2, s3, hs, h0, h1⟩ := law.randrange_pos a b s hab
    rw [h] at hs
    obtain ⟨rfl, rfl⟩ : r = r2 ∧ s2 = s3 := by
      have := Option.some.inj hs
      exact ⟨congrArg Prod.fst this, congrArg Prod.snd this⟩
    exact ⟨h0, h1⟩
  · rw [law.randrange_empty a b s (by omega)] at h
    cases h

theorem randrange_ne_none {sg : Type} {R : PyRandom sg}
    (law : LawfulPyRandom R) {a b : ℤ} (hab : a < b) (s : sg) :
    R.randrange a b s ≠ none := by
  obtain ⟨r, s2, hs, _, _⟩ := law.randrange_pos a b s hab
  simp [hs]

theorem pyIndex_mem {α : Type} {l : List α} {i : ℤ} {a : α}
    (h : pyIndex l i = some a) : a ∈ l := by
  unfold pyIndex at h
  split at h
  · exact List.get?_mem h
  · split at h
    · exact List.get?_mem h
    · cases h

theorem pyIndex_isSome {α : Type} (l : List α) (i : ℤ) (h0 : 0 ≤ i)
    (hl : i < l.length) : ∃ a, pyIndex l i = some a := by
  unfold pyIndex
  rw [if_pos h0]
  have ht : i.toNat < l.length := by omega
  exact ⟨l.get ⟨i.toNat, ht⟩, List.get?_eq_get ht⟩

theorem pyIndex_ne_none {α : Type} (l : List α) (i : ℤ) (h0 : 0 ≤ i)
    (hl : i < l.length) : pyIndex l i ≠ none := by
  obtain ⟨a, ha⟩ := pyIndex_isSome l i h0 hl
  simp [ha]

theorem ite_eq_or {c : Prop} [Decidable c] (x y : String) :
    (if c then x else y) = x ∨ (if c then x else y) = y := by
  split
  · exact Or.inl rfl
  · exact Or.inr rfl

theorem microStep_some {sg : Type} {M : MathLib} {R : PyRandom sg} {px : ℚ}
    {shapes : List Shape} {s : sg} {res : List Shape} {s2 : sg}
    (h : microStep M R px shapes s = some (res, s2)) :
    ∃ b : Shape, res = shapes ++ [b] ∧ b.z = 30 ∧
      (b.color_key = "C4" ∨ b.color_key = "C2") ∧
      ∃ st a2 dx dy r1 r2, b.poly = translate_points
        (rotate_points M
          ((random_blob M R r1 r2 (6, 10) (1, 2) (12 / 100, 28 / 100) st).1) a2)
        dx dy := by
  simp only [microStep] at h
  split at h
  · cases h
  · split at h
    · cases h
    · split at h
      · cases h
      · split at h
        · simp only [Option.some.injEq, Prod.mk.injEq] at h
          obtain ⟨hres, hs⟩ := h
          refine ⟨_, hres.symm, rfl, ite_eq_or _ _, ?_⟩
          · exact ⟨_, _, _, _, _, _, rfl⟩
        · cases h

theorem microStep_isSome {sg : Type} (M : MathLib) (R : PyRandom sg)
    (law : LawfulPyRandom R) (px : ℚ) (shapes : List Shape) (s : sg)
    (hne : shapes ≠ []) (hpoly : ∀ x ∈ shapes, x.poly ≠ []) :
    (microStep M R px shapes s).isSome := by
  have hlen : (0 : ℤ) < shapes.length := by
    have := List.length_pos.mpr hne
    exact_mod_cast this
  simp only [microStep]
  split
  · rename_i heq
    exact absurd heq (randrange_ne_none law hlen _)
  · rename_i idx s1 heq
    obtain ⟨h0, hi⟩ := randrange_some_bounds law heq
    split
    · rename_i heq2
      exact absurd heq2 (pyIndex_ne_none shapes idx h0 (by exact_mod_cast hi))
    · rename_i tgt heq2
      have htp : tgt.poly ≠ [] := hpoly tgt (pyIndex_mem heq2)
      have hplen : (0 : ℤ) < tgt.poly.length := by
        have := List.length_pos.mpr htp
        exact_mod_cast this
      split
      · rename_i heq3
        exact absurd heq3 (randrange_ne_none law hplen _)
      · rename_i k s3 heq3
        obtain ⟨hk0, hk⟩ := randrange_some_bounds law heq3
        split
        · rfl
        · rename_i hcatch
          obtain ⟨p1, hp1⟩ := pyIndex_isSome tgt.poly k hk0 (by exact_mod_cast hk)
          obtain ⟨p2, hp2⟩ := pyIndex_isSome tgt.poly ((k + 1) % (tgt.poly.length : ℤ))
            (Int.emod_nonneg _ (by omega)) (Int.emod_lt_of_pos _ hplen)
          exact absurd (hcatch p1 p2 hp1 hp2) not_false

theorem microLoop_some {sg : Type} {M : MathLib} {R : PyRandom sg} {px : ℚ} :
    ∀ (n : ℕ) (shapes : List Shape) (s : sg) (res : List Shape) (s2 : sg),
      microLoop M R px n shapes s = some (res, s2) →
      ∃ added, res = shapes ++ added ∧ added.length = n ∧
        ∀ b ∈ added, b.z = 30 ∧ (b.color_key = "C4" ∨ b.color_key = "C2") := by
  intro n
  induction n with
  | zero =>
    intro shapes s res s2 h
    simp only [microLoop, Option.some.injEq, Prod.mk.injEq] at h
    exact ⟨[], by simp [h.1.symm], rfl, by simp⟩
  | succ n ih =>
    intro shapes s res s2 h
    simp only [microLoop] at h
    split at h
    · cases h
    · rename_i shapes2 s3 heq
      obtain ⟨added, hres, hlen, hprop⟩ := ih shapes2 s3 res s2 h
      obtain ⟨b, hb, hz, hc, _⟩ := microStep_some heq
      subst hb
      refine ⟨b :: added, by rw [hres]; simp, by simp [hlen], ?_⟩
      intro x hx
      rcases List.mem_cons.mp hx with rfl | hx
      · exact ⟨hz, hc⟩
      · exact hprop x hx

theorem microLoop_isSome {sg : Type} (M : MathLib) (R : PyRandom sg)
    (law : LawfulPyRandom R) (px : ℚ) :
    ∀ (n : ℕ) (shapes : List Shape) (s : sg), shapes ≠ [] →
      (∀ x ∈ shapes, x.poly ≠ []) → (microLoop M R px n shapes s).isSome := by
  intro n
  induction n with
  | zero => intro shapes s hne hpoly; simp [microLoop]
  | succ n ih =>
    intro shapes s hne hpoly
    simp only [microLoop]
    split
    · rename_i heq
      have hs := microStep_isSome M R law px shapes s hne hpoly
      rw [heq] at hs
      cases hs
    · rename_i shapes2 s3 heq
      obtain ⟨b, hb, hz, hc, hprov⟩ := microStep_some heq
      obtain ⟨st, a2, dx, dy, r1, r2, hpolyeq⟩ := hprov
      have hbp : b.poly ≠ [] := by
        rw [hpolyeq]
        have hnn := random_blob_ne_nil M R law r1 r2 (6, 10) (1, 2)
          (12 / 100, 28 / 100) st (by norm_num) (by norm_num)
        intro hcon
        simp only [translate_points, rotate_points, List.map_eq_nil_iff] at hcon
        exact hnn hcon
      subst hb
      apply ih
      · simp
      · intro x hx
        rcases List.mem_append.mp hx with hx | hx
        · exact hpoly x hx
        · rw [List.mem_singleton.mp hx]
          exact hbp

theorem sortShapes_of_split (ma added : List Shape)
    (hma : ∀ x ∈ ma, x.z = 10) (hadd : ∀ x ∈ added, x.z = 30) :
    sortShapes (ma ++ added) = ma ++ added := by
  unfold sortShapes
  apply List.Sorted.insertionSort_eq
  apply List.pairwise_append.mpr
  refine ⟨?_, ?_, ?_⟩
  · apply List.pairwise_of_forall_mem_list
    intro a ha b hb
    rw [hma a ha, hma b hb]
  · apply List.pairwise_of_forall_mem_list
    intro a ha b hb
    rw [hadd a ha, hadd b hb]
  · intro a ha b hb
    rw [hma a ha, hadd b hb]
    norm_num

theorem genPhases_char {sg : Type} (M : MathLib) (R : PyRandom sg)
    (law : LawfulPyRandom R) (seed tile : ℤ) (px : ℚ) (mc mi : ℕ)
    (W : ℤ) (pre : List Shape)
    (h : genPhases M R seed tile px mc mi = some (W, pre)) :
    W = pyRoundQ ((tile : ℚ) * px) ∧
    ∃ ma added, pre = ma ++ added ∧
      ma.length = nMid mc + nBig mc + (nHuge mc).toNat ∧
      added.length = mi ∧
      (∀ x ∈ ma, x.z = 10 ∧ (x.color_key = "C1" ∨ x.color_key = "C3")) ∧
      (∀ x ∈ added, x.z = 30 ∧ (x.color_key = "C4" ∨ x.color_key = "C2")) := by
  simp only [genPhases] at h
  split at h
  · cases h
  · rename_i r heq
    simp only [Option.some.injEq, Prod.mk.injEq] at h
    obtain ⟨hW, hsh⟩ := h
    obtain ⟨res, s2⟩ := r
    obtain ⟨added, hres, hlen, hprop⟩ := microLoop_some mi _ _ res s2 heq
    subst hsh
    refine ⟨hW.symm, _, added, hres, ?_, hlen, ?_, hprop⟩
    · rw [stMap_length]
      rw [(law.shuffle_perm _ _).length_eq]
      simp [List.length_append, List.length_replicate]
      omega
    · intro x hx
      obtain ⟨a, s3, _, hxa⟩ := stMap_mem _ _ _ x hx
      rw [hxa]
      exact ⟨macroStep_z M R px _ _ a s3, macroStep_color M R px _ _ a s3⟩

theorem genMatch_isSome {sg : Type} (M : MathLib) (R : PyRandom sg)
    (law : LawfulPyRandom R) (px : ℚ) (W0 : ℤ) (mi : ℕ) (l : List Shape)
    (s : sg) (hc : (l ≠ [] ∧ ∀ x ∈ l, x.poly ≠ []) ∨ mi = 0) :
    (Option.isSome (match microLoop M R px mi l s with
      | none => none
      | some r => some (W0, r.1) : Option (ℤ × List Shape))) := by
  rcases hc with ⟨hne, hpoly⟩ | rfl
  · have hml := microLoop_isSome M R law px mi l s hne hpoly
    obtain ⟨⟨res, s2⟩, hr⟩ := Option.isSome_iff_exists.mp hml
    rw [hr]
    rfl
  · simp [microLoop]

theorem genPhases_isSome {sg : Type} (M : MathLib) (R : PyRandom sg)
    (law : LawfulPyRandom R) (seed tile : ℤ) (px : ℚ) (mc mi : ℕ)
    (hc : 1 ≤ mc ∨ mi = 0) :
    (genPhases M R seed tile px mc mi).isSome := by
  simp only [genPhases]
  apply genMatch_isSome M R law
  rcases hc with hc | rfl
  · left
    constructor
    · intro hcon
      have hl := congrArg List.length hcon
      rw [stMap_length] at hl
      rw [(law.shuffle_perm _ _).length_eq] at hl
      simp [List.length_append, List.length_replicate] at hl
      have hh : nHuge mc = (mc : ℤ) - nMid mc - nBig mc := rfl
      omega
    · intro x hx
      obtain ⟨a, s3, _, hxa⟩ := stMap_mem _ _ _ x hx
      rw [hxa]
      exact macroStep_poly_ne_nil M R law px _ _ a s3
  · right
    rfl

theorem generate_camo_isSome {sg : Type} (M : MathLib) (R : PyRandom sg)
    (law : LawfulPyRandom R) (seed tile : ℤ) (px : ℚ) (mc mi : ℕ)
    (hc : 1 ≤ mc ∨ mi = 0) :
    (generate_camo M R seed tile px mc mi).isSome := by
  simp only [generate_camo]
  have h := genPhases_isSome M R law seed tile px mc mi hc
  obtain ⟨⟨W, pre⟩, hr⟩ := Option.isSome_iff_exists.mp h
  rw [hr]
  rfl

theorem generate_camo_char {sg : Type} (M : MathLib) (R : PyRandom sg)
    (law : LawfulPyRandom R) (seed tile : ℤ) (px : ℚ) (mc mi : ℕ)
    (W : ℤ) (shapes : List Shape)
    (h : generate_camo M R seed tile px mc mi = some (W, shapes)) :
    W = pyRoundQ ((tile : ℚ) * px) ∧
    ∃ ma added, genPhases M R seed tile px mc mi = some (W, ma ++ added) ∧
      shapes = ma ++ added ∧
      ma.length = nMid mc + nBig mc + (nHuge mc).toNat ∧
      added.length = mi ∧
      (∀ x ∈ ma, x.z = 10 ∧ (x.color_key = "C1" ∨ x.color_key = "C3")) ∧
      (∀ x ∈ added, x.z = 30 ∧ (x.color_key = "C4" ∨ x.color_key = "C2")) := by
  simp only [generate_camo] at h
  split at h
  · cases h
  · rename_i r heq
    obtain ⟨W2, pre⟩ := r
    simp only [Option.some.injEq, Prod.mk.injEq] at h
    obtain ⟨hW2, hsh⟩ := h
    subst hW2
    obtain ⟨hWv, ma, added, hpre, hmalen, haddlen, hma, hadd⟩ :=
      genPhases_char M R law seed tile px mc mi _ _ heq
    subst hpre
    have hsort := sortShapes_of_split ma added
      (fun x hx => (hma x hx).1) (fun x hx => (hadd x hx).1)
    refine ⟨hWv, ma, added, heq, ?_, hmalen, haddlen, hma, hadd⟩
    rw [← hsh, hsort]

theorem generate_camo_zero {sg : Type} (M : MathLib) (R : PyRandom sg)
    (law : LawfulPyRandom R) (seed tile : ℤ) (px : ℚ) :
    generate_camo M R seed tile px 0 0 =
      some (pyRoundQ ((tile : ℚ) * px), []) := by
  have h1 : nMid 0 = 0 := by decide
  have h2 : nBig 0 = 0 := by decide
  have h3 : (nHuge 0).toNat = 0 := by decide
  have hsh0 : (R.shuffle [] (R.init seed)).1 = [] :=
    List.perm_nil.mp (law.shuffle_perm [] _)
  simp only [generate_camo, genPhases, h1, h2, h3, List.replicate,
    List.nil_append, hsh0, stMap, microLoop, sortShapes, List.insertionSort]

theorem ratioReport_nil (k : String) : ratioReport [] k = 0 := by
  simp [ratioReport, totalArea]

/-! ## Lemmas about the hex parsing model -/

theorem hexVal_isSome_iff (c : ℕ) : (hexVal c).isSome ↔
    (48 ≤ c ∧ c ≤ 57) ∨ (97 ≤ c ∧ c ≤ 102) ∨ (65 ≤ c ∧ c ≤ 70) := by
  unfold hexVal
  split_ifs <;> simp <;> omega

theorem hexVal_lower (c : ℕ) : hexVal (pyLowerChar c) = hexVal c := by
  unfold pyLowerChar hexVal
  split_ifs <;> first | rfl | omega

theorem hexVal_not_space {c : ℕ} (h : (hexVal c).isSome) : pySpace c = false := by
  rw [hexVal_isSome_iff] at h
  simp only [pySpace, Bool.or_eq_false_iff, beq_eq_false_iff_ne, ne_eq]
  omega

theorem hexVal_ne_sign {c : ℕ} (h : (hexVal c).isSome) : c ≠ 43 ∧ c ≠ 45 := by
  rw [hexVal_isSome_iff] at h
  omega

theorem dropWhile_eq_self_of_head (p : ℕ → Bool) (l : List ℕ)
    (h : ∀ c, l.head? = some c → p c = false) : l.dropWhile p = l := by
  cases l with
  | nil => rfl
  | cons a t => simp [List.dropWhile, h a rfl]

theorem pyStrip_eq_self (l : List ℕ)
    (hh : ∀ c, l.head? = some c → pySpace c = false)
    (hl : ∀ c, l.getLast? = some c → pySpace c = false) : pyStrip l = l := by
  unfold pyStrip
  rw [dropWhile_eq_self_of_head _ _ hh]
  rw [dropWhile_eq_self_of_head _ _ (by
    intro c hcg
    rw [List.head?_reverse] at hcg
    exact hl c hcg)]
  exact List.reverse_reverse l

theorem hexDigits_single_isSome (b : ℕ) :
    (hexDigits [b]).isSome ↔ (hexVal b).isSome := by
  rcases hv : hexVal b with _ | v <;> simp [hexDigits, hv, hexDigitsAux]

theorem hexDigits_pair_isSome (a b : ℕ) :
    (hexDigits [a, b]).isSome ↔ ((hexVal a).isSome ∧ (hexVal b).isSome) := by
  rcases hva : hexVal a with _ | va
  · simp [hexDigits, hva]
  · rcases hvb : hexVal b with _ | vb
    · simp only [hexDigits, hva, hexDigitsAux, hvb]
      split_ifs <;> simp
    · simp [hexDigits, hva, hexDigitsAux, hvb]

theorem hexDigits_pair_eq {a b va vb : ℕ} (ha : hexVal a = some va)
    (hb : hexVal b = some vb) : hexDigits [a, b] = some (16 * va + vb) := by
  simp [hexDigits, ha, hexDigitsAux, hb]

theorem pyStrip_pair (a b : ℕ) : pyStrip [a, b] =
    if pySpace a then (if pySpace b then [] else [b])
    else (if pySpace b then [a] else [a, b]) := by
  cases hA : pySpace a <;> cases hB : pySpace b <;>
    simp [pyStrip, List.dropWhile, hA, hB]

theorem hexVal_none_of_space {c : ℕ} (h : pySpace c = true) : hexVal c = none := by
  rcases hv : hexVal c with _ | v
  · rfl
  · have := @hexVal_not_space c (by simp [hv])
    rw [this] at h
    cases h

theorem pyInt16_two_hex {a b va vb : ℕ} (ha : hexVal a = some va)
    (hb : hexVal b = some vb) :
    pyInt16 [a, b] = some ((16 * va + vb : ℕ) : ℤ) := by
  have hsa : pySpace a = false := hexVal_not_space (by simp [ha])
  have hsb : pySpace b = false := hexVal_not_space (by simp [hb])
  have hstrip : pyStrip [a, b] = [a, b] := by
    rw [pyStrip_pair, hsa, hsb]
    simp
  obtain ⟨h43, h45⟩ := @hexVal_ne_sign a (by simp [ha])
  unfold pyInt16
  rw [hstrip]
  rw [if_neg (by simp [h43]), if_neg (by simp [h45])]
  rw [hexDigits_pair_eq ha hb]
  rfl

theorem isSome_bind_some {α β : Type} (o : Option α) (f : α → β) :
    (o.bind fun a => some (f a)).isSome = o.isSome := by
  cases o <;> rfl

theorem hexDigits_single_isSome_b (b : ℕ) :
    (hexDigits [b]).isSome = (hexVal b).isSome := by
  rcases hv : hexVal b with _ | v <;> simp [hexDigits, hv, hexDigitsAux]

theorem hexDigits_pair_isSome_b (a b : ℕ) :
    (hexDigits [a, b]).isSome = ((hexVal a).isSome && (hexVal b).isSome) := by
  rcases hva : hexVal a with _ | va
  · simp [hexDigits, hva]
  · rcases hvb : hexVal b with _ | vb
    · simp only [hexDigits, hva, hexDigitsAux, hvb]
      split_ifs <;> simp
    · simp [hexDigits, hva, hexDigitsAux, hvb]

theorem pyInt16_pair_isSome (a b : ℕ) :
    (pyInt16 [a, b]).isSome ↔ slice2OK a b := by
  unfold pyInt16 slice2OK
  rw [pyStrip_pair]
  cases hA : pySpace a <;> cases hB : pySpace b <;>
      simp only [Bool.false_eq_true, if_false, if_true]
  · -- neither end is whitespace
    by_cases h43 : a = 43
    · subst h43
      rw [if_pos (by simp)]
      simp [isSome_bind_some, hexDigits_single_isSome_b, hA,
        show hexVal 43 = none from rfl]
    · by_cases h45 : a = 45
      · subst h45
        rw [if_neg (by simp), if_pos (by simp)]
        simp [isSome_bind_some, hexDigits_single_isSome_b, hA,
          show hexVal 45 = none from rfl]
      · rw [if_neg (by simp [h43]), if_neg (by simp [h45])]
        simp [isSome_bind_some, hexDigits_pair_isSome_b, hA, h43, h45]
  · -- only the second end is whitespace
    by_cases h43 : a = 43
    · subst h43
      rw [if_pos (by simp)]
      simp [hexDigits, hexVal_none_of_space, hB,
        show hexVal 43 = none from rfl]
    · by_cases h45 : a = 45
      · subst h45
        rw [if_neg (by simp), if_pos (by simp)]
        simp [hexDigits, hexVal_none_of_space, hB,
          show hexVal 45 = none from rfl]
      · rw [if_neg (by simp [h43]), if_neg (by simp [h45])]
        simp [isSome_bind_some, hexDigits_single_isSome_b, hexVal_none_of_space,
          hB, hA, h43, h45]
  · -- only the first end is whitespace
    by_cases h43 : b = 43
    · subst h43
      rw [if_pos (by simp)]
      simp [hexDigits, hexVal_none_of_space, hA,
        show hexVal 43 = none from rfl]
    · by_cases h45 : b = 45
      · subst h45
        rw [if_neg (by simp), if_pos (by simp)]
        simp [hexDigits, hexVal_none_of_space, hA,
          show hexVal 45 = none from rfl]
      · rw [if_neg (by simp [h43]), if_neg (by simp [h45])]
        simp [isSome_bind_some, hexDigits_single_isSome_b, hexVal_none_of_space,
          hA, hB, h43, h45]
  · -- both ends whitespace
    simp [hexDigits, hexVal_none_of_space, hA, hB]

theorem length_eq_seven {α : Type} {l : List α} (h : l.length = 7) :
    ∃ c0 c1 c2 c3 c4 c5 c6, l = [c0, c1, c2, c3, c4, c5, c6] := by
  rcases l with _ | ⟨c0, l⟩
  · simp at h
  rcases l with _ | ⟨c1, l⟩
  · simp at h
  rcases l with _ | ⟨c2, l⟩
  · simp at h
  rcases l with _ | ⟨c3, l⟩
  · simp at h
  rcases l with _ | ⟨c4, l⟩
  · simp at h
  rcases l with _ | ⟨c5, l⟩
  · simp at h
  rcases l with _ | ⟨c6, l⟩
  · simp at h
  rcases l with _ | ⟨c7, l⟩
  · exact ⟨c0, c1, c2, c3, c4, c5, c6, rfl⟩
  · simp at h

theorem hex_to_rgb_canonical (l : List ℕ) (h : isCanonicalHex l) :
    hex_to_rgb l = some (parsedBytes l) := by
  obtain ⟨hlen, hhead, hdig⟩ := h
  obtain ⟨c0, c1, c2, c3, c4, c5, c6, rfl⟩ := length_eq_seven hlen
  have hc0 : c0 = 35 := by simpa using hhead
  subst hc0
  have hd1 : (hexVal c1).isSome := hdig c1 (by simp)
  have hd2 : (hexVal c2).isSome := hdig c2 (by simp)
  have hd3 : (hexVal c3).isSome := hdig c3 (by simp)
  have hd4 : (hexVal c4).isSome := hdig c4 (by simp)
  have hd5 : (hexVal c5).isSome := hdig c5 (by simp)
  have hd6 : (hexVal c6).isSome := hdig c6 (by simp)
  obtain ⟨v1, hv1⟩ := Option.isSome_iff_exists.mp hd1
  obtain ⟨v2, hv2⟩ := Option.isSome_iff_exists.mp hd2
  obtain ⟨v3, hv3⟩ := Option.isSome_iff_exists.mp hd3
  obtain ⟨v4, hv4⟩ := Option.isSome_iff_exists.mp hd4
  obtain ⟨v5, hv5⟩ := Option.isSome_iff_exists.mp hd5
  obtain ⟨v6, hv6⟩ := Option.isSome_iff_exists.mp hd6
  have hstrip : pyStrip [35, c1, c2, c3, c4, c5, c6] = [35, c1, c2, c3, c4, c5, c6] := by
    apply pyStrip_eq_self
    · intro c hc
      simp at hc
      subst hc
      rfl
    · intro c hc
      simp [List.getLast?] at hc
      subst hc
      exact hexVal_not_space hd6
  unfold hex_to_rgb
  rw [hstrip]
  simp only [List.map_cons, List.map_nil]
  have hl35 : pyLowerChar 35 = 35 := rfl
  rw [hl35]
  rw [if_pos (by simp)]
  simp only [List.drop_succ_cons, List.drop_zero, List.take_succ_cons,
    List.take_zero]
  rw [pyInt16_two_hex ((hexVal_lower c1).trans hv1) ((hexVal_lower c2).trans hv2)]
  rw [pyInt16_two_hex ((hexVal_lower c3).trans hv3) ((hexVal_lower c4).trans hv4)]
  rw [pyInt16_two_hex ((hexVal_lower c5).trans hv5) ((hexVal_lower c6).trans hv6)]
  simp [parsedBytes, hv1, hv2, hv3, hv4, hv5, hv6]

theorem hex_to_rgb_none_iff (l : List ℕ) :
    hex_to_rgb l = none ↔ ¬ pyAcceptedHex l := by
  unfold hex_to_rgb pyAcceptedHex
  by_cases hcond : ((pyStrip l).map pyLowerChar).head? = some 35 ∧
      ((pyStrip l).map pyLowerChar).length = 7
  · rw [if_pos hcond]
    obtain ⟨hhead, hlen⟩ := hcond
    obtain ⟨c0, c1, c2, c3, c4, c5, c6, hform⟩ := length_eq_seven hlen
    rw [hform]
    rw [hform] at hhead
    have hc0 : c0 = 35 := by simpa using hhead
    subst hc0
    simp only [List.drop_succ_cons, List.drop_zero, List.take_succ_cons,
      List.take_zero, List.getD_cons_succ, List.getD_cons_zero,
      List.length_cons, List.length_nil, List.head?_cons]
    rcases o1 : pyInt16 [c1, c2] with _ | x1 <;>
      rcases o2 : pyInt16 [c3, c4] with _ | x2 <;>
        rcases o3 : pyInt16 [c5, c6] with _ | x3 <;>
          simp [← pyInt16_pair_isSome, o1, o2, o3]
  · rw [if_neg hcond]
    simp only [true_iff]
    intro hacc
    exact hcond ⟨hacc.2.1, hacc.1⟩

theorem list_sum_map_sub {α : Type} (l : List α) (f g : α → ℚ) :
    (l.map (fun x => f x - g x)).sum = (l.map f).sum - (l.map g).sum := by
  induction l with
  | nil => simp
  | cons a t ih =>
    simp only [List.map_cons, List.sum_cons, ih]
    ring

theorem shoelaceSum_eq_zero_of_collinear {poly : List Point}
    (h : collinearPts poly) : shoelaceSum poly = 0 := by
  cases poly with
  | nil => rfl
  | cons p0 rest =>
    have hzip : ∀ pq ∈ (p0 :: rest).zip ((p0 :: rest).rotate 1),
        pq.1.1 * pq.2.2 - pq.2.1 * pq.1.2 =
        (fun x : Point => p0.1 * x.2 - x.1 * p0.2) pq.2 -
        (fun x : Point => p0.1 * x.2 - x.1 * p0.2) pq.1 := by
      intro pq hpq
      obtain ⟨hp, hq⟩ := List.of_mem_zip hpq
      have hq2 : pq.2 ∈ (p0 :: rest) := List.mem_rotate.mp hq
      have hc := h p0 (by simp) pq.1 hp pq.2 hq2
      dsimp only
      linear_combination hc
    unfold shoelaceSum
    rw [List.map_congr_left hzip]
    rw [list_sum_map_sub]
    have hlen1 : ((p0 :: rest).rotate 1).length ≤ (p0 :: rest).length := by
      simp
    have hlen2 : (p0 :: rest).length ≤ ((p0 :: rest).rotate 1).length := by
      simp
    have e2 : (((p0 :: rest).zip ((p0 :: rest).rotate 1)).map
        (fun pq => (fun x : Point => p0.1 * x.2 - x.1 * p0.2) pq.2)) =
        ((p0 :: rest).rotate 1).map (fun x : Point => p0.1 * x.2 - x.1 * p0.2) := by
      rw [show (fun pq : Point × Point =>
          (fun x : Point => p0.1 * x.2 - x.1 * p0.2) pq.2) =
          ((fun x : Point => p0.1 * x.2 - x.1 * p0.2) ∘ Prod.snd) from rfl]
      rw [← List.map_map]
      rw [List.map_snd_zip _ _ hlen1]
    have e3 : (((p0 :: rest).zip ((p0 :: rest).rotate 1)).map
        (fun pq => (fun x : Point => p0.1 * x.2 - x.1 * p0.2) pq.1)) =
        (p0 :: rest).map (fun x : Point => p0.1 * x.2 - x.1 * p0.2) := by
      rw [show (fun pq : Point × Point =>
          (fun x : Point => p0.1 * x.2 - x.1 * p0.2) pq.1) =
          ((fun x : Point => p0.1 * x.2 - x.1 * p0.2) ∘ Prod.fst) from rfl]
      rw [← List.map_map]
      rw [List.map_fst_zip _ _ hlen2]
    rw [e2, e3]
    rw [((List.rotate_perm (p0 :: rest) 1).map
      (fun x : Point => p0.1 * x.2 - x.1 * p0.2)).sum_eq]
    exact sub_self _

theorem polygon_area_nonneg (poly : List Point) : 0 ≤ polygon_area poly := by
  unfold polygon_area
  positivity

theorem polygon_area_zero_of_collinear {poly : List Point}
    (h : collinearPts poly) : polygon_area poly = 0 := by
  unfold polygon_area
  rw [shoelaceSum_eq_zero_of_collinear h]
  simp

/-! ## The claims -/

/-- C1: for every fixed seed and configuration (tile_mm, px_per_mm,
macro_count, micro_count), two independent calls to generate_camo return
identical results: the same tile size in pixels and the same shape list
(same polygon point sequences, same color roles, same draw-order values, in
the same order).  In this embedding the single seeded stream is threaded
explicitly, so generate_camo is a function of the seed and configuration
and two runs with equal arguments are equal outputs. -/
theorem c1_generate_camo_deterministic {sg : Type} (M : MathLib)
    (R : PyRandom sg) (seed tile : ℤ) (px : ℚ) (mc mi : ℕ)
    (r1 r2 : Option (ℤ × List Shape))
    (h1 : r1 = generate_camo M R seed tile px mc mi)
    (h2 : r2 = generate_camo M R seed tile px mc mi) : r1 = r2 :=
  h1.trans h2.symm

theorem c1_witness :
    generate_camo M0 trivialRandom 12345 640 2 42 140 =
    generate_camo M0 trivialRandom 12345 640 2 42 140 :=
  c1_generate_camo_deterministic M0 trivialRandom 12345 640 2 42 140 _ _ rfl rfl

/-- C2: for every polygon and every tile size S, wrapped_instances returns
exactly 9 polygons, the translates of the input by the offsets of the 3 x 3
grid (-S,0,S) x (-S,0,S), each offset used exactly once, in the traversal
order of the two nested loops; the instance at index 4, the one with offset
(0, 0), equals the input polygon exactly. -/
theorem c2_wrapped_instances (poly : List Point) (S : ℤ) :
    wrapped_instances poly S S =
      (offsetGrid S).map (fun o => translate_points poly (o.1 : ℚ) (o.2 : ℚ)) ∧
    (wrapped_instances poly S S).length = 9 ∧
    (wrapped_instances poly S S).get? 4 = some poly := by
  refine ⟨rfl, rfl, ?_⟩
  simp [wrapped_instances]

/-- C3: in the shape list returned by generate_camo (after the final sort
by draw order), every macro shape (z = 10) precedes every micro shape
(z = 30), and the sort is stable: the returned list is exactly the
pre-sort generation list (macro generation order, then micro generation
order), so relative generation order is preserved. -/
theorem c3_draw_order {sg : Type} (M : MathLib) (R : PyRandom sg)
    (law : LawfulPyRandom R) (seed tile : ℤ) (px : ℚ) (mc mi : ℕ)
    (W : ℤ) (shapes : List Shape)
    (h : generate_camo M R seed tile px mc mi = some (W, shapes)) :
    ∃ ma mi2, genPhases M R seed tile px mc mi = some (W, ma ++ mi2) ∧
      shapes = ma ++ mi2 ∧ sortShapes (ma ++ mi2) = ma ++ mi2 ∧
      (∀ x ∈ ma, x.z = 10) ∧ (∀ x ∈ mi2, x.z = 30) := by
  obtain ⟨hW, ma, added, hgp, hsh, _, _, hma, hadd⟩ :=
    generate_camo_char M R law _ _ _ _ _ _ _ h
  exact ⟨ma, added, hgp, hsh,
    sortShapes_of_split ma added (fun x hx => (hma x hx).1)
      (fun x hx => (hadd x hx).1),
    fun x hx => (hma x hx).1, fun x hx => (hadd x hx).1⟩

theorem c3_witness :
    ∃ W shapes, generate_camo M0 trivialRandom 12345 640 2 1 1 =
        some (W, shapes) ∧
      ∃ ma mi2, genPhases M0 trivialRandom 12345 640 2 1 1 = some (W, ma ++ mi2) ∧
        shapes = ma ++ mi2 ∧ sortShapes (ma ++ mi2) = ma ++ mi2 ∧
        (∀ x ∈ ma, x.z = 10) ∧ (∀ x ∈ mi2, x.z = 30) := by
  have hs := generate_camo_isSome M0 trivialRandom trivialRandom_lawful
    12345 640 2 1 1 (Or.inl (by norm_num))
  obtain ⟨⟨W, shapes⟩, h⟩ := Option.isSome_iff_exists.mp hs
  exact ⟨W, shapes, h, c3_draw_order M0 trivialRandom trivialRandom_lawful
    12345 640 2 1 1 W shapes h⟩

/-- C4: every shape returned by generate_camo carries a color role among
the 4 fixed keys; every macro shape (z = 10) carries C1 or C3, and every
micro shape (z = 30) carries C4 or C2. -/
theorem c4_color_roles {sg : Type} (M : MathLib) (R : PyRandom sg)
    (law : LawfulPyRandom R) (seed tile : ℤ) (px : ℚ) (mc mi : ℕ)
    (W : ℤ) (shapes : List Shape)
    (h : generate_camo M R seed tile px mc mi = some (W, shapes))
    (sh : Shape) (hm : sh ∈ shapes) :
    (sh.color_key = "C1" ∨ sh.color_key = "C2" ∨ sh.color_key = "C3" ∨
      sh.color_key = "C4") ∧
    (sh.z = 10 → sh.color_key = "C1" ∨ sh.color_key = "C3") ∧
    (sh.z = 30 → sh.color_key = "C4" ∨ sh.color_key = "C2") := by
  obtain ⟨hW, ma, added, hgp, hsh, _, _, hma, hadd⟩ :=
    generate_camo_char M R law _ _ _ _ _ _ _ h
  subst hsh
  rcases List.mem_append.mp hm with hx | hx
  · obtain ⟨hz, hc⟩ := hma sh hx
    refine ⟨?_, fun _ => hc, fun h30 => ?_⟩
    · rcases hc with hc | hc
      · exact Or.inl hc
      · exact Or.inr (Or.inr (Or.inl hc))
    · rw [hz] at h30
      cases h30
  · obtain ⟨hz, hc⟩ := hadd sh hx
    refine ⟨?_, fun h10 => ?_, fun _ => hc⟩
    · rcases hc with hc | hc
      · exact Or.inr (Or.inr (Or.inr hc))
      · exact Or.inr (Or.inl hc)
    · rw [hz] at h10
      cases h10

theorem c4_witness :
    ∃ W shapes sh, generate_camo M0 trivialRandom 12345 640 2 1 0 =
        some (W, shapes) ∧ sh ∈ shapes ∧
      ((sh.color_key = "C1" ∨ sh.color_key = "C2" ∨ sh.color_key = "C3" ∨
        sh.color_key = "C4") ∧
      (sh.z = 10 → sh.color_key = "C1" ∨ sh.color_key = "C3") ∧
      (sh.z = 30 → sh.color_key = "C4" ∨ sh.color_key = "C2")) := by
  have hs := generate_camo_isSome M0 trivialRandom trivialRandom_lawful
    12345 640 2 1 0 (Or.inl (by norm_num))
  obtain ⟨⟨W, shapes⟩, h⟩ := Option.isSome_iff_exists.mp hs
  have hlen : shapes.length = 1 := by
    obtain ⟨_, ma, added, _, hsh, hmalen, haddlen, _, _⟩ :=
      generate_camo_char M0 trivialRandom trivialRandom_lawful
        12345 640 2 1 0 W shapes h
    subst hsh
    rw [List.length_append, hmalen, haddlen]
    decide
  obtain ⟨sh, hm⟩ := List.exists_mem_of_ne_nil shapes
    (by intro hcon; rw [hcon] at hlen; cases hlen)
  exact ⟨W, shapes, sh, h, hm, c4_color_roles M0 trivialRandom
    trivialRandom_lawful 12345 640 2 1 0 W shapes h sh hm⟩

/-- C5 (amended): hex_to_rgb raises (returns none) iff, after stripping
surrounding whitespace and lowercasing, the input is not a 7-character
string starting with the hash sign whose three 2-character slices each
parse as base-16 integers under the int grammar (two hex digits, or one
hex digit with a sign or whitespace character beside it); and on every
input that is literally a hash sign followed by 6 hex digits it returns
the three parsed byte values.  The original claim (failure iff the raw
input is not hash plus 6 hex digits) is refuted by c5_counterexample. -/
theorem c5_hex_to_rgb (l : List ℕ) :
    (hex_to_rgb l = none ↔ ¬ pyAcceptedHex l) ∧
    (isCanonicalHex l → hex_to_rgb l = some (parsedBytes l)) :=
  ⟨hex_to_rgb_none_iff l, hex_to_rgb_canonical l⟩

/-- The 8-character input " #aabbcc" (code points, leading space) is not a
7-character hash-plus-6-hex-digits string, yet hex_to_rgb accepts it and
returns (170, 187, 204) instead of raising. -/
theorem c5_counterexample :
    hex_to_rgb [32, 35, 97, 97, 98, 98, 99, 99] = some (170, 187, 204) ∧
    ¬ isCanonicalHex [32, 35, 97, 97, 98, 98, 99, 99] := by
  constructor
  · decide
  · decide

theorem c5_witness :
    isCanonicalHex [35, 65, 97, 66, 98, 67, 99] ∧
    hex_to_rgb [35, 65, 97, 66, 98, 67, 99] =
      some (parsedBytes [35, 65, 97, 66, 98, 67, 99]) :=
  ⟨by decide, (c5_hex_to_rgb [35, 65, 97, 66, 98, 67, 99]).2 (by decide)⟩

set_option maxRecDepth 40000 in
theorem nHuge_nonneg_upto_2000 :
    ((List.range 2001).all (fun mc => decide (0 ≤ nHuge mc))) = true := by
  decide

/-- C6 (amended): for every macro_count up to 2000 the huge-size-class
count macro_count - round(macro_count * 0.50) - round(macro_count * 0.30)
(computed with Python float semantics: the products are IEEE doubles and
round is ties-to-even) is non-negative; in particular it is 1, not
negative, at the macro_count = 1 example named by the claim.  The claimed
existence of a small macro_count with a negative count is refuted by
c6_counterexample. -/
theorem c6_nHuge_nonneg (mc : ℕ) (h : mc ≤ 2000) : 0 ≤ nHuge mc := by
  have hall := nHuge_nonneg_upto_2000
  rw [List.all_eq_true] at hall
  exact of_decide_eq_true (hall mc (List.mem_range.mpr (by omega)))

/-- At the claimed example macro_count = 1, the huge count is 1 (Python
round is ties-to-even, so round(0.5) = 0 and round(0.3) = 0), and the
count is non-negative for every macro_count up to 2000. -/
theorem c6_counterexample :
    nHuge 1 = 1 ∧
    ((List.range 2001).all (fun mc => decide (0 ≤ nHuge mc))) = true :=
  ⟨by decide, nHuge_nonneg_upto_2000⟩

theorem c6_witness : (1 : ℕ) ≤ 2000 ∧ 0 ≤ nHuge 1 :=
  ⟨by norm_num, c6_nHuge_nonneg 1 (by norm_num)⟩

/-- C7: with seed 12345, tile_mm 640, px_per_mm 2.0, macro_count 42 and
micro_count 140, generate_camo returns tile size 1280 and a sorted list of
exactly 182 shapes: the first 42 have draw order 10 and the remaining 140
have draw order 30 (for every implementation of the math and random
libraries satisfying the documented contract). -/
theorem c7_scenario {sg : Type} (M : MathLib) (R : PyRandom sg)
    (law : LawfulPyRandom R) :
    ∃ shapes, generate_camo M R 12345 640 2 42 140 = some (1280, shapes) ∧
      shapes.length = 182 ∧
      (shapes.take 42).length = 42 ∧
      (∀ x ∈ shapes.take 42, x.z = 10) ∧
      (∀ x ∈ shapes.drop 42, x.z = 30) := by
  have hs := generate_camo_isSome M R law 12345 640 2 42 140
    (Or.inl (by norm_num))
  obtain ⟨⟨W, shapes⟩, h⟩ := Option.isSome_iff_exists.mp hs
  obtain ⟨hW, ma, added, hgp, hsh, hmalen, haddlen, hma, hadd⟩ :=
    generate_camo_char M R law _ _ _ _ _ _ _ h
  have hWv : W = 1280 := by
    rw [hW]
    norm_num [pyRoundQ]
  have hmalen42 : ma.length = 42 := by
    rw [hmalen]
    decide
  subst hsh
  subst hWv
  refine ⟨ma ++ added, h, ?_, ?_, ?_, ?_⟩
  · rw [List.length_append, hmalen42, haddlen]
  · rw [← hmalen42, List.take_left, hmalen42]
  · rw [← hmalen42, List.take_left]
    intro x hx
    exact (hma x hx).1
  · rw [← hmalen42, List.drop_left]
    intro x hx
    exact (hadd x hx).1

theorem c7_witness :
    ∃ shapes, generate_camo M0 trivialRandom 12345 640 2 42 140 =
        some (1280, shapes) ∧
      shapes.length = 182 ∧
      (shapes.take 42).length = 42 ∧
      (∀ x ∈ shapes.take 42, x.z = 10) ∧
      (∀ x ∈ shapes.drop 42, x.z = 30) :=
  c7_scenario M0 trivialRandom trivialRandom_lawful

/-- C8 (amended): polygon_area returns the absolute value of the signed
shoelace sum divided by 2, which is always non-negative, and it returns
zero on every collinear input; the converse of the claim (zero only for
collinear inputs) fails for self-intersecting polygons with cancelling
lobes, refuted by c8_counterexample. -/
theorem c8_polygon_area (poly : List Point) :
    polygon_area poly = |shoelaceSum poly| / 2 ∧
    0 ≤ polygon_area poly ∧
    (collinearPts poly → polygon_area poly = 0) :=
  ⟨rfl, polygon_area_nonneg poly, polygon_area_zero_of_collinear⟩

/-- The bowtie quadrilateral (0,0), (1,0), (0,1), (1,1) has shoelace area 0
but its points are not collinear: polygon_area is zero on an input that is
not degenerate in the claimed sense. -/
theorem c8_counterexample :
    polygon_area [((0 : ℚ), (0 : ℚ)), (1, 0), (0, 1), (1, 1)] = 0 ∧
    ¬ collinearPts [((0 : ℚ), (0 : ℚ)), (1, 0), (0, 1), (1, 1)] := by
  constructor
  · norm_num [polygon_area, shoelaceSum, List.rotate, List.zip, List.zipWith]
  · intro h
    have := h (0, 0) (by simp) (1, 0) (by simp) (0, 1) (by simp)
    norm_num at this

theorem c8_witness :
    collinearPts [((0 : ℚ), (0 : ℚ)), (1, 1), (2, 2)] ∧
    polygon_area [((0 : ℚ), (0 : ℚ)), (1, 1), (2, 2)] = 0 := by
  have hc : collinearPts [((0 : ℚ), (0 : ℚ)), (1, 1), (2, 2)] := by
    intro p hp q hq r hr
    fin_cases hp <;> fin_cases hq <;> fin_cases hr <;> norm_num
  exact ⟨hc, (c8_polygon_area [((0 : ℚ), (0 : ℚ)), (1, 1), (2, 2)]).2.2 hc⟩

/-- C9: with macro_count = 0 and micro_count = 0, generate_camo returns the
empty shape list (with the configured tile size), and the reporting step
computes all four per-role area ratios as 0 through the guarded branch
(total area 0), without dividing by zero. -/
theorem c9_zero_counts {sg : Type} (M : MathLib) (R : PyRandom sg)
    (law : LawfulPyRandom R) (seed tile : ℤ) (px : ℚ) :
    generate_camo M R seed tile px 0 0 =
      some (pyRoundQ ((tile : ℚ) * px), []) ∧
    ∀ k, ratioReport [] k = 0 :=
  ⟨generate_camo_zero M R law seed tile px, fun k => ratioReport_nil k⟩

theorem c9_witness :
    generate_camo M0 trivialRandom 12345 640 2 0 0 =
      some (pyRoundQ ((640 : ℚ) * 2), []) ∧
    ∀ k, ratioReport [] k = 0 :=
  c9_zero_counts M0 trivialRandom trivialRandom_lawful 12345 640 2

theorem generate_camo_empty_fail {sg : Type} (M : MathLib) (R : PyRandom sg)
    (law : LawfulPyRandom R) (seed tile : ℤ) (px : ℚ) (n : ℕ) :
    generate_camo M R seed tile px 0 (n + 1) = none := by
  have h1 : nMid 0 = 0 := by decide
  have h2 : nBig 0 = 0 := by decide
  have h3 : (nHuge 0).toNat = 0 := by decide
  have hsh0 : (R.shuffle [] (R.init seed)).1 = [] :=
    List.perm_nil.mp (law.shuffle_perm [] _)
  have hrr : ∀ s : sg, R.randrange 0 ((([] : List Shape).length : ℕ) : ℤ) s = none :=
    fun s => law.randrange_empty _ _ s (by simp)
  simp only [generate_camo, genPhases, h1, h2, h3, List.replicate,
    List.nil_append, hsh0, stMap, microLoop, microStep, hrr]

/-- C10: for every macro_count at least 1, every micro anchor-selection
index drawn by randrange lies in [0, current shape list length) by the
randrange contract, the current list being nonempty, so the micro
placement indexing never fails and generate_camo returns a result; whereas
with macro_count = 0 and micro_count at least 1 the first anchor selection
draws from the empty range [0, 0) and generate_camo fails (returns none,
the model of the raised ValueError) instead of returning a shape list. -/
theorem c10_anchor_selection {sg : Type} (M : MathLib) (R : PyRandom sg)
    (law : LawfulPyRandom R) (seed tile : ℤ) (px : ℚ) :
    (∀ mc mi : ℕ, 1 ≤ mc → (generate_camo M R seed tile px mc mi).isSome) ∧
    (∀ mi : ℕ, 1 ≤ mi → generate_camo M R seed tile px 0 mi = none) := by
  constructor
  · intro mc mi hmc
    exact generate_camo_isSome M R law seed tile px mc mi (Or.inl hmc)
  · intro mi hmi
    obtain ⟨n, rfl⟩ : ∃ n, mi = n + 1 := ⟨mi - 1, by omega⟩
    exact generate_camo_empty_fail M R law seed tile px n

theorem c10_witness :
    (generate_camo M0 trivialRandom 12345 640 2 1 1).isSome ∧
    generate_camo M0 trivialRandom 12345 640 2 0 1 = none :=
  ⟨(c10_anchor_selection M0 trivialRandom trivialRandom_lawful
      12345 640 2).1 1 1 (by norm_num),
   (c10_anchor_selection M0 trivialRandom trivialRandom_lawful
      12345 640 2).2 1 (by norm_num)⟩
